import Mathlib

/-!
Verification of the pr-enforcer check-run reconciliation engine
(src/cli.py), shallowly embedded in Lean 4.

The embedding models:
- the CheckRun data entity (id, name, status, conclusion);
- the Status and Conclusion taxonomies (classes Status and Conclusion);
- filter_and_log_by_conclusion / filter_and_log_by_status (logging dropped,
  they only filter);
- reduce_to_latest_runs (group by name in first-seen order, pick max id;
  the Python stable descending sort picks the first occurrence of the
  maximal id in each group);
- the body of poll_vault as a per-cycle decision function returning an
  Outcome plus a flag recording whether log_summary was called;
- the retry-driven polling loop.  The retry engine itself (tenacity) is a
  third-party dependency whose code is not in the repository; the loop is
  modelled from the specification: on Retry, sleep for interval, then loop
  provided the elapsed budget is not exhausted, else terminate TimedOut;
  any non-retryable error from the source is fatal and never retried.
- the prelude of hello that builds the user ignore set: ignore.split in
  Python raises AttributeError when ignore is None, modelled with Except.
-/

/-- One observed check execution (github.CheckRun fields used by cli.py). -/
structure CheckRun where
  id : Nat
  name : String
  status : String
  conclusion : Option String
deriving Repr, DecidableEq

namespace Status

def queued : String := "queued"

def in_progress : String := "in_progress"

def completed : String := "completed"

/-- Status.complete() in cli.py. -/
def complete : List String := [completed]

/-- Status.incomplete() in cli.py. -/
def incomplete : List String := [queued, in_progress]

end Status

namespace Conclusion

def action_required : String := "action_required"

def cancelled : String := "cancelled"

def timed_out : String := "timed_out"

def failure : String := "failure"

def failed : String := "failed"

def neutral : String := "neutral"

def skipped : String := "skipped"

def stale : String := "stale"

def startup_failure : String := "startup_failure"

def success : String := "success"

/-- Conclusion.ignored() in cli.py. -/
def ignored : List String := [neutral, skipped]

/-- Conclusion.fail() in cli.py. -/
def fail : List String :=
  [action_required, cancelled, timed_out, failure, failed, stale, startup_failure]

/-- Conclusion.succeeded() in cli.py. -/
def succeeded : List String := [success]

end Conclusion

/-- Python membership test run.conclusion in conclusions: None is never a
member of a list of strings. -/
def conclMem (c : Option String) (conclusions : List String) : Bool :=
  match c with
  | none => false
  | some s => conclusions.contains s

/-- filter_and_log_by_conclusion, with logging dropped. -/
def filter_and_log_by_conclusion (complete : List CheckRun) (conclusions : List String) :
    List CheckRun :=
  complete.filter (fun r => conclMem r.conclusion conclusions)

/-- filter_and_log_by_status, with logging dropped. -/
def filter_and_log_by_status (runs : List CheckRun) (statuses : List String) :
    List CheckRun :=
  runs.filter (fun r => statuses.contains r.status)

/-- The distinct names of the input in first-seen order, as the keys of the
defaultdict built by reduce_to_latest_runs. -/
def dedupNames : List String → List String
  | [] => []
  | n :: rest => n :: (dedupNames rest).filter (fun m => m != n)

/-- First element of maximal id, as selected by the stable descending
Python sort runs.sort(key id, reverse) followed by runs[0]. -/
def pickLatest : List CheckRun → Option CheckRun
  | [] => none
  | r :: rest =>
    match pickLatest rest with
    | none => some r
    | some b => some (if b.id > r.id then b else r)

/-- reduce_to_latest_runs in cli.py: one run per distinct name, the one
with the maximal id in its group. -/
def reduce_to_latest_runs (check_runs : List CheckRun) : List CheckRun :=
  (dedupNames (check_runs.map CheckRun.name)).filterMap
    (fun n => pickLatest (check_runs.filter (fun r => r.name == n)))

/-- Maximum id occurring in a list of runs (0 for the empty list). -/
def maxIdOf (l : List CheckRun) : Nat :=
  l.foldr (fun r m => max r.id m) 0

/-- The line _runs = list(filter(lambda r: r.name not in user_ignore, latest_runs)). -/
def filterIgnored (runs : List CheckRun) (ig : List String) : List CheckRun :=
  runs.filter (fun r => !(ig.contains r.name))

/-- The buckets computed by one poll_vault cycle from the deduplicated
runs and the ignore set. -/
structure ClassifiedBatch where
  incomplete : List CheckRun
  complete : List CheckRun
  ignored : List CheckRun
  succeeded : List CheckRun
  failed : List CheckRun
deriving Repr, DecidableEq

/-- The classification stage of poll_vault (lines 214-242). -/
def classifyBatch (latest_runs : List CheckRun) (user_ignore : List String) :
    ClassifiedBatch :=
  let rs := filterIgnored latest_runs user_ignore
  let comp := filter_and_log_by_status rs Status.complete
  { incomplete := filter_and_log_by_status rs Status.incomplete
    complete := comp
    ignored := filter_and_log_by_conclusion comp Conclusion.ignored
    succeeded := filter_and_log_by_conclusion comp Conclusion.succeeded
    failed := filter_and_log_by_conclusion comp Conclusion.fail }

/-- A completed conclusion recognized by some taxonomy list of cli.py. -/
def conclRecognized (c : Option String) : Bool :=
  conclMem c Conclusion.ignored || conclMem c Conclusion.succeeded ||
    conclMem c Conclusion.fail

/-- Terminal decision of one poll_vault cycle. -/
inductive Outcome where
  | retry : Outcome
  | success : Outcome
  | failure : Outcome
deriving Repr, DecidableEq

/-- The decision tail of poll_vault (lines 244-260): the Outcome together
with whether log_summary was called during the cycle.  Mirrors the code:
a non-empty failed bucket with exhaustive false raises Exception after
log_summary; a non-empty incomplete bucket raises the retryable Enforcer;
a non-empty failed bucket (exhaustive) raises Exception after log_summary;
otherwise the cycle returns the filtered runs. -/
def pollVaultCycle (b : ClassifiedBatch) (exhaustive : Bool) : Outcome × Bool :=
  if !b.failed.isEmpty && !exhaustive then (Outcome.failure, true)
  else if !b.incomplete.isEmpty then (Outcome.retry, false)
  else if !b.failed.isEmpty then (Outcome.failure, true)
  else (Outcome.success, false)

/-- The decision alone. -/
def decideOutcome (b : ClassifiedBatch) (exhaustive : Bool) : Outcome :=
  (pollVaultCycle b exhaustive).fst

/-- Terminal result of the whole polling loop. -/
inductive LoopResult where
  | success : List CheckRun → LoopResult
  | failure : LoopResult
  | timedOut : LoopResult
  | fatal : String → LoopResult
  | outOfFuel : LoopResult
deriving Repr, DecidableEq

/-- Result of a loop run: terminal result, number of poll cycles performed
(fetches executed), and whether log_summary was ever called. -/
structure LoopRun where
  result : LoopResult
  cycles : Nat
  emitted : Bool
deriving Repr, DecidableEq

/-- Modelled from the spec: the retry engine driving poll_vault is the
third-party tenacity decorator, whose code is not in the repository; per
the specification the loop fetches, classifies, decides, and on Retry
sleeps for interval and loops provided the elapsed budget is not
exhausted, terminating TimedOut when elapsed reaches the budget; a fetch
error is fatal and never retried.  Fuel makes the recursion structural. -/
def pollLoopAux (fetch : Nat → Except String (List CheckRun)) (ig : List String)
    (exhaustive : Bool) (interval timeout : Nat) :
    Nat → Nat → Nat → LoopRun
  | 0, _, _ => ⟨LoopResult.outOfFuel, 0, false⟩
  | fuel + 1, attempt, elapsed =>
    match fetch attempt with
    | Except.error e => ⟨LoopResult.fatal e, 1, false⟩
    | Except.ok check_runs =>
      let latest := reduce_to_latest_runs check_runs
      let b := classifyBatch latest ig
      match pollVaultCycle b exhaustive with
      | (Outcome.failure, em) => ⟨LoopResult.failure, 1, em⟩
      | (Outcome.success, em) => ⟨LoopResult.success (filterIgnored latest ig), 1, em⟩
      | (Outcome.retry, em) =>
        let elapsed2 := elapsed + interval
        if timeout ≤ elapsed2 then ⟨LoopResult.timedOut, 1, em⟩
        else
          let rest := pollLoopAux fetch ig exhaustive interval timeout fuel
            (attempt + 1) elapsed2
          ⟨rest.result, rest.cycles + 1, em || rest.emitted⟩

/-- cli.py lines 179 and 185: the trimmed comma-separated user names with
the self name appended. -/
def userIgnoreList (ignore : String) (nm : String) : List String :=
  ((ignore.splitOn ",").map String.trim) ++ [nm]

/-- The same list building seen from hello: ignore.split(",") raises
AttributeError when the optional --ignore was omitted (ignore is None). -/
def helloIgnoreSet (ignore : Option String) (nm : String) :
    Except String (List String) :=
  match ignore with
  | none => Except.error "AttributeError"
  | some s => Except.ok (userIgnoreList s nm)

/-- The hello entry point reduced to the core: build the ignore set, then
run the polling loop; the AttributeError aborts before any fetch. -/
def helloRun (ignore : Option String) (nm : String)
    (fetch : Nat → Except String (List CheckRun)) (exhaustive : Bool)
    (interval timeout fuel : Nat) : LoopRun :=
  match helloIgnoreSet ignore nm with
  | Except.error e => ⟨LoopResult.fatal e, 0, false⟩
  | Except.ok ig => pollLoopAux fetch ig exhaustive interval timeout fuel 1 0

/-- A run that is never complete, for the timeout scenario. -/
def incompleteRun : CheckRun :=
  { id := 1, name := "build", status := "in_progress", conclusion := none }

/-- A source that always reports one incomplete run. -/
def alwaysIncomplete : Nat → Except String (List CheckRun) :=
  fun _ => Except.ok [incompleteRun]

/-- A run that completed successfully. -/
def successRun : CheckRun :=
  { id := 2, name := "tests", status := "completed", conclusion := some "success" }

/-- A run that completed with a failing conclusion. -/
def failedRun : CheckRun :=
  { id := 3, name := "lint", status := "completed", conclusion := some "failure" }

/-- A completed run whose conclusion matches no taxonomy list. -/
def mysteryRun : CheckRun :=
  { id := 4, name := "scan", status := "completed", conclusion := some "mystery" }

lemma pollVaultCycle_snd_iff (b : ClassifiedBatch) (ex : Bool) :
    (pollVaultCycle b ex).snd = true ↔ (pollVaultCycle b ex).fst = Outcome.failure := by
  cases hf : b.failed.isEmpty <;> cases hi : b.incomplete.isEmpty <;> cases ex <;>
    simp [pollVaultCycle, hf, hi]

lemma pollVaultCycle_retry_incomplete {b : ClassifiedBatch} {ex : Bool}
    (h : (pollVaultCycle b ex).fst = Outcome.retry) : b.incomplete ≠ [] := by
  intro hnil
  revert h
  cases hfb : b.failed.isEmpty <;> cases ex <;> simp [pollVaultCycle, hnil, hfb]

/-- C1: a batch with a non-empty failed bucket decides Failure under
exhaustive false, even with a non-empty incomplete bucket, while the
identical batch under exhaustive true with a non-empty incomplete bucket
decides Retry. -/
theorem claim_C1_fail_fast_precedence (b : ClassifiedBatch) (hf : b.failed ≠ []) :
    decideOutcome b false = Outcome.failure ∧
      (b.incomplete ≠ [] → decideOutcome b true = Outcome.retry) := by
  constructor
  · cases hfe : b.failed with
    | nil => exact absurd hfe hf
    | cons x xs => simp [decideOutcome, pollVaultCycle, hfe]
  · intro hi
    cases hie : b.incomplete with
    | nil => exact absurd hie hi
    | cons x xs => simp [decideOutcome, pollVaultCycle, hie]

theorem claim_C1_witness :
    (⟨[incompleteRun], [], [], [], [failedRun]⟩ : ClassifiedBatch).failed ≠ [] ∧
      decideOutcome ⟨[incompleteRun], [], [], [], [failedRun]⟩ false = Outcome.failure ∧
      decideOutcome ⟨[incompleteRun], [], [], [], [failedRun]⟩ true = Outcome.retry :=
  ⟨by decide,
   (claim_C1_fail_fast_precedence ⟨[incompleteRun], [], [], [], [failedRun]⟩ (by decide)).1,
   (claim_C1_fail_fast_precedence ⟨[incompleteRun], [], [], [], [failedRun]⟩ (by decide)).2
     (by decide)⟩

/-- C2: with an empty incomplete bucket the decision is Failure when the
failed bucket is non-empty and Success when it is empty, for either mode
and whatever the ignored and succeeded buckets hold. -/
theorem claim_C2_terminal_decision (b : ClassifiedBatch) (ex : Bool)
    (hi : b.incomplete = []) :
    (b.failed ≠ [] → decideOutcome b ex = Outcome.failure) ∧
      (b.failed = [] → decideOutcome b ex = Outcome.success) := by
  constructor
  · intro hf
    cases hfe : b.failed with
    | nil => exact absurd hfe hf
    | cons x xs => cases ex <;> simp [decideOutcome, pollVaultCycle, hi, hfe]
  · intro hf
    cases ex <;> simp [decideOutcome, pollVaultCycle, hi, hf]

theorem claim_C2_witness :
    decideOutcome ⟨[], [failedRun], [], [], [failedRun]⟩ true = Outcome.failure ∧
      decideOutcome ⟨[], [successRun, mysteryRun], [], [successRun], []⟩ false =
        Outcome.success :=
  ⟨(claim_C2_terminal_decision ⟨[], [failedRun], [], [], [failedRun]⟩ true (by decide)).1
     (by decide),
   (claim_C2_terminal_decision ⟨[], [successRun, mysteryRun], [], [successRun], []⟩ false
     (by decide)).2 (by decide)⟩

/-- C7 counterexample: a loop that terminates Success after one successful
fetch emits no summary, contradicting the claim that every terminal
outcome among Success, Failure and TimedOut reached after a successful
fetch emits one. -/
theorem claim_C7_counterexample :
    (pollLoopAux (fun _ => Except.ok [successRun]) [] false 10 25 5 1 0).result =
        LoopResult.success [successRun] ∧
      (pollLoopAux (fun _ => Except.ok [successRun]) [] false 10 25 5 1 0).emitted = false := by
  constructor <;> rfl

/-- C7 amended: the loop calls log_summary exactly when it terminates with
Failure; Success, TimedOut, fatal errors and fuel exhaustion emit no
summary. -/
theorem claim_C7_summary_iff_failure (fetch : Nat → Except String (List CheckRun))
    (ig : List String) (ex : Bool) (interval timeout fuel attempt elapsed : Nat) :
    (pollLoopAux fetch ig ex interval timeout fuel attempt elapsed).emitted = true ↔
      (pollLoopAux fetch ig ex interval timeout fuel attempt elapsed).result =
        LoopResult.failure := by
  induction fuel generalizing attempt elapsed with
  | zero => simp [pollLoopAux]
  | succ n ih =>
    rw [pollLoopAux]
    cases hf : fetch attempt with
    | error e => simp
    | ok check_runs =>
      rcases hc : pollVaultCycle (classifyBatch (reduce_to_latest_runs check_runs) ig) ex
        with ⟨o, em⟩
      have hsnd := pollVaultCycle_snd_iff (classifyBatch (reduce_to_latest_runs check_runs) ig) ex
      rw [hc] at hsnd
      cases o with
      | failure =>
        have : em = true := hsnd.mpr rfl
        subst this
        simp [hc]
      | success =>
        have : em = false := by
          cases hem : em
          · rfl
          · exact absurd (hsnd.mp hem) (by simp)
        subst this
        simp [hc]
      | retry =>
        have : em = false := by
          cases hem : em
          · rfl
          · exact absurd (hsnd.mp hem) (by simp)
        subst this
        by_cases ht : timeout ≤ elapsed + interval
        · simp [hc, ht]
        · simp [hc, ht, ih]

/-- C8: with interval 10, timeout 25 and a source always reporting one
incomplete run, the loop returns TimedOut after 2 or 3 cycles and never
exceeds the budget by more than one interval. -/
theorem claim_C8_timeout_cycles :
    (pollLoopAux alwaysIncomplete [] false 10 25 10 1 0).result = LoopResult.timedOut ∧
      ((pollLoopAux alwaysIncomplete [] false 10 25 10 1 0).cycles = 2 ∨
        (pollLoopAux alwaysIncomplete [] false 10 25 10 1 0).cycles = 3) ∧
      (pollLoopAux alwaysIncomplete [] false 10 25 10 1 0).cycles * 10 ≤ 25 + 10 := by
  refine ⟨rfl, Or.inr rfl, by decide⟩

/-- C9: omitting --ignore (None) makes building the ignore set raise
AttributeError before any fetch: the loop runs zero cycles and terminates
fatal. -/
theorem claim_C9_ignore_none_fatal (nm : String)
    (fetch : Nat → Except String (List CheckRun)) (ex : Bool)
    (interval timeout fuel : Nat) :
    helloRun none nm fetch ex interval timeout fuel =
      ⟨LoopResult.fatal "AttributeError", 0, false⟩ := rfl

lemma pickLatest_eq_none {l : List CheckRun} : pickLatest l = none ↔ l = [] := by
  cases l with
  | nil => simp [pickLatest]
  | cons r rest =>
    simp only [pickLatest]
    cases hp : pickLatest rest <;> simp

lemma pickLatest_mem {l : List CheckRun} {r : CheckRun} (h : pickLatest l = some r) :
    r ∈ l := by
  induction l with
  | nil => simp [pickLatest] at h
  | cons a rest ih =>
    simp only [pickLatest] at h
    cases hp : pickLatest rest with
    | none =>
      rw [hp] at h
      simp at h
      subst h
      exact List.mem_cons_self a rest
    | some b =>
      rw [hp] at h
      simp at h
      by_cases hb : b.id > a.id
      · rw [if_pos hb] at h
        subst h
        exact List.mem_cons_of_mem a (ih hp)
      · rw [if_neg hb] at h
        subst h
        exact List.mem_cons_self a rest

lemma pickLatest_le {l : List CheckRun} {r : CheckRun} (h : pickLatest l = some r) :
    ∀ x ∈ l, x.id ≤ r.id := by
  induction l generalizing r with
  | nil => simp
  | cons a rest ih =>
    simp only [pickLatest] at h
    cases hp : pickLatest rest with
    | none =>
      rw [hp] at h
      simp at h
      have hre : rest = [] := pickLatest_eq_none.mp hp
      subst hre
      subst h
      intro x hx
      simp at hx
      subst hx
      exact le_refl _
    | some b =>
      rw [hp] at h
      simp at h
      intro x hx
      rcases List.mem_cons.mp hx with hxa | hxr
      · subst hxa
        by_cases hb : b.id > x.id
        · rw [if_pos hb] at h
          subst h
          exact Nat.le_of_lt hb
        · rw [if_neg hb] at h
          subst h
          exact le_refl _
      · by_cases hb : b.id > a.id
        · rw [if_pos hb] at h
          subst h
          exact ih hp x hxr
        · rw [if_neg hb] at h
          subst h
          exact Nat.le_trans (ih hp x hxr) (Nat.le_of_not_lt hb)

lemma dedupNames_mem {l : List String} {m : String} : m ∈ dedupNames l ↔ m ∈ l := by
  induction l with
  | nil => simp [dedupNames]
  | cons n rest ih =>
    by_cases hmn : m = n
    · simp [dedupNames, hmn]
    · simp [dedupNames, List.mem_filter, ih, hmn]

lemma dedupNames_nodup (l : List String) : (dedupNames l).Nodup := by
  induction l with
  | nil => simp [dedupNames]
  | cons n rest ih =>
    simp only [dedupNames, List.nodup_cons]
    constructor
    · intro hmem
      have := (List.mem_filter.mp hmem).2
      simp at this
    · exact ih.filter _

lemma reduce_names_aux (runs : List CheckRun) (ns : List String)
    (h : ∀ n ∈ ns, n ∈ runs.map CheckRun.name) :
    (ns.filterMap (fun n => pickLatest (runs.filter (fun r => r.name == n)))).map
        CheckRun.name = ns := by
  induction ns with
  | nil => simp
  | cons n rest ih =>
    have hn : n ∈ runs.map CheckRun.name := h n (List.mem_cons_self n rest)
    obtain ⟨r0, hr0, hname⟩ := List.mem_map.mp hn
    have hfil : r0 ∈ runs.filter (fun r => r.name == n) :=
      List.mem_filter.mpr ⟨hr0, by simp [hname]⟩
    obtain ⟨r1, hr1⟩ : ∃ r1, pickLatest (runs.filter (fun r => r.name == n)) = some r1 := by
      cases hp : pickLatest (runs.filter (fun r => r.name == n)) with
      | none => exact absurd (pickLatest_eq_none.mp hp) (List.ne_nil_of_mem hfil)
      | some r1 => exact ⟨r1, rfl⟩
    have hr1name : r1.name = n := by
      have := (List.mem_filter.mp (pickLatest_mem hr1)).2
      simpa using this
    simp only [List.filterMap_cons, hr1, List.map_cons, hr1name]
    rw [ih (fun m hm => h m (List.mem_cons_of_mem n hm))]

lemma reduce_names (runs : List CheckRun) :
    (reduce_to_latest_runs runs).map CheckRun.name = dedupNames (runs.map CheckRun.name) := by
  exact reduce_names_aux runs _ (fun n hn => dedupNames_mem.mp hn)

lemma maxIdOf_le {l : List CheckRun} {c : Nat} (h : ∀ x ∈ l, x.id ≤ c) :
    maxIdOf l ≤ c := by
  induction l with
  | nil => simp [maxIdOf]
  | cons a rest ih =>
    simp only [maxIdOf, List.foldr_cons]
    exact max_le (h a (List.mem_cons_self a rest))
      (ih (fun x hx => h x (List.mem_cons_of_mem a hx)))

lemma le_maxIdOf {l : List CheckRun} {r : CheckRun} (h : r ∈ l) : r.id ≤ maxIdOf l := by
  induction l with
  | nil => simp at h
  | cons a rest ih =>
    simp only [maxIdOf, List.foldr_cons]
    rcases List.mem_cons.mp h with ha | hr
    · subst ha
      exact le_max_left _ _
    · exact Nat.le_trans (ih hr) (le_max_right _ _)

lemma maxIdOf_eq {l : List CheckRun} {r : CheckRun} (hmem : r ∈ l)
    (hle : ∀ x ∈ l, x.id ≤ r.id) : maxIdOf l = r.id :=
  Nat.le_antisymm (maxIdOf_le hle) (le_maxIdOf hmem)

/-- C3: the deduplicator yields the empty list on empty input, exactly one
entry per distinct input name, and each entry comes from the input with an
id equal to the maximum id among input runs of that name. -/
theorem claim_C3_reduce_to_latest (runs : List CheckRun) :
    reduce_to_latest_runs ([] : List CheckRun) = [] ∧
      (∀ n : String,
        ((reduce_to_latest_runs runs).map CheckRun.name).count n =
          if n ∈ runs.map CheckRun.name then 1 else 0) ∧
      (∀ r ∈ reduce_to_latest_runs runs,
        r ∈ runs ∧ r.id = maxIdOf (runs.filter (fun x => x.name == r.name))) := by
  refine ⟨rfl, ?_, ?_⟩
  · intro n
    rw [reduce_names]
    by_cases h : n ∈ runs.map CheckRun.name
    · rw [if_pos h]
      exact List.count_eq_one_of_mem (dedupNames_nodup _) (dedupNames_mem.mpr h)
    · rw [if_neg h]
      rw [List.count_eq_zero]
      exact fun hc => h (dedupNames_mem.mp hc)
  · intro r hr
    obtain ⟨n, hn, hp⟩ := List.mem_filterMap.mp hr
    have hrmem := pickLatest_mem hp
    have hrf := List.mem_filter.mp hrmem
    have hrname : r.name = n := by simpa using hrf.2
    refine ⟨hrf.1, ?_⟩
    rw [hrname]
    exact (maxIdOf_eq hrmem (pickLatest_le hp)).symm

/-- Runs A, B, C of the specification's deduplication example. -/
def runA : CheckRun := { id := 1, name := "X", status := "completed", conclusion := some "success" }

def runB : CheckRun := { id := 5, name := "X", status := "in_progress", conclusion := none }

def runC : CheckRun := { id := 3, name := "Y", status := "completed", conclusion := some "failure" }

theorem claim_C3_witness :
    (((reduce_to_latest_runs [runA, runB, runC]).map CheckRun.name).count "X" =
        if "X" ∈ [runA, runB, runC].map CheckRun.name then 1 else 0) ∧
      (runB ∈ [runA, runB, runC] ∧
        runB.id = maxIdOf ([runA, runB, runC].filter (fun x => x.name == runB.name))) :=
  ⟨(claim_C3_reduce_to_latest [runA, runB, runC]).2.1 "X",
   (claim_C3_reduce_to_latest [runA, runB, runC]).2.2 runB (by decide)⟩

lemma mem_classify_incomplete {l : List CheckRun} {ig : List String} {r : CheckRun} :
    r ∈ (classifyBatch l ig).incomplete ↔
      r ∈ filterIgnored l ig ∧ Status.incomplete.contains r.status = true := by
  show r ∈ (filterIgnored l ig).filter (fun x => Status.incomplete.contains x.status) ↔ _
  exact List.mem_filter

lemma mem_classify_complete {l : List CheckRun} {ig : List String} {r : CheckRun} :
    r ∈ (classifyBatch l ig).complete ↔
      r ∈ filterIgnored l ig ∧ Status.complete.contains r.status = true := by
  show r ∈ (filterIgnored l ig).filter (fun x => Status.complete.contains x.status) ↔ _
  exact List.mem_filter

lemma mem_classify_ignored {l : List CheckRun} {ig : List String} {r : CheckRun} :
    r ∈ (classifyBatch l ig).ignored ↔
      r ∈ (classifyBatch l ig).complete ∧ conclMem r.conclusion Conclusion.ignored = true := by
  show r ∈ (classifyBatch l ig).complete.filter
      (fun x => conclMem x.conclusion Conclusion.ignored) ↔ _
  exact List.mem_filter

lemma mem_classify_succeeded {l : List CheckRun} {ig : List String} {r : CheckRun} :
    r ∈ (classifyBatch l ig).succeeded ↔
      r ∈ (classifyBatch l ig).complete ∧
        conclMem r.conclusion Conclusion.succeeded = true := by
  show r ∈ (classifyBatch l ig).complete.filter
      (fun x => conclMem x.conclusion Conclusion.succeeded) ↔ _
  exact List.mem_filter

lemma mem_classify_failed {l : List CheckRun} {ig : List String} {r : CheckRun} :
    r ∈ (classifyBatch l ig).failed ↔
      r ∈ (classifyBatch l ig).complete ∧ conclMem r.conclusion Conclusion.fail = true := by
  show r ∈ (classifyBatch l ig).complete.filter
      (fun x => conclMem x.conclusion Conclusion.fail) ↔ _
  exact List.mem_filter

/-- C4: a run whose name is in the ignore set (self name plus trimmed
user-supplied names) lands in no classified bucket, and the self name is
always in the ignore set. -/
theorem claim_C4_ignored_names (latest : List CheckRun) (igStr nm : String) (r : CheckRun)
    (h : r.name ∈ userIgnoreList igStr nm) :
    nm ∈ userIgnoreList igStr nm ∧
      r ∉ (classifyBatch latest (userIgnoreList igStr nm)).incomplete ∧
      r ∉ (classifyBatch latest (userIgnoreList igStr nm)).ignored ∧
      r ∉ (classifyBatch latest (userIgnoreList igStr nm)).succeeded ∧
      r ∉ (classifyBatch latest (userIgnoreList igStr nm)).failed := by
  have hnotrs : r ∉ filterIgnored latest (userIgnoreList igStr nm) := by
    intro hmem
    have h2 := (List.mem_filter.mp hmem).2
    simp at h2
    exact h2 h
  refine ⟨by simp [userIgnoreList], ?_, ?_, ?_, ?_⟩
  · exact fun hm => hnotrs (mem_classify_incomplete.mp hm).1
  · exact fun hm => hnotrs (mem_classify_complete.mp (mem_classify_ignored.mp hm).1).1
  · exact fun hm => hnotrs (mem_classify_complete.mp (mem_classify_succeeded.mp hm).1).1
  · exact fun hm => hnotrs (mem_classify_complete.mp (mem_classify_failed.mp hm).1).1

theorem claim_C4_witness :
    "enforce-all-checks" ∈ userIgnoreList "label, CodeQL" "enforce-all-checks" ∧
      (⟨7, "enforce-all-checks", "in_progress", none⟩ : CheckRun) ∉
        (classifyBatch [⟨7, "enforce-all-checks", "in_progress", none⟩]
          (userIgnoreList "label, CodeQL" "enforce-all-checks")).incomplete ∧
      (⟨7, "enforce-all-checks", "in_progress", none⟩ : CheckRun) ∉
        (classifyBatch [⟨7, "enforce-all-checks", "in_progress", none⟩]
          (userIgnoreList "label, CodeQL" "enforce-all-checks")).ignored ∧
      (⟨7, "enforce-all-checks", "in_progress", none⟩ : CheckRun) ∉
        (classifyBatch [⟨7, "enforce-all-checks", "in_progress", none⟩]
          (userIgnoreList "label, CodeQL" "enforce-all-checks")).succeeded ∧
      (⟨7, "enforce-all-checks", "in_progress", none⟩ : CheckRun) ∉
        (classifyBatch [⟨7, "enforce-all-checks", "in_progress", none⟩]
          (userIgnoreList "label, CodeQL" "enforce-all-checks")).failed :=
  claim_C4_ignored_names [⟨7, "enforce-all-checks", "in_progress", none⟩]
    "label, CodeQL" "enforce-all-checks" ⟨7, "enforce-all-checks", "in_progress", none⟩
    (by simp [userIgnoreList])

lemma conclMem_some_iff {s : String} {L : List String} :
    conclMem (some s) L = true ↔ s ∈ L := by
  simp [conclMem]

lemma mem_ignored_not_other {s : String} (h : s ∈ Conclusion.ignored) :
    s ∉ Conclusion.succeeded ∧ s ∉ Conclusion.fail := by
  simp only [Conclusion.ignored, Conclusion.neutral, Conclusion.skipped, List.mem_cons,
    List.not_mem_nil, or_false] at h
  rcases h with h | h <;> subst h <;> exact ⟨by decide, by decide⟩

lemma mem_succeeded_not_other {s : String} (h : s ∈ Conclusion.succeeded) :
    s ∉ Conclusion.ignored ∧ s ∉ Conclusion.fail := by
  simp only [Conclusion.succeeded, Conclusion.success, List.mem_cons,
    List.not_mem_nil, or_false] at h
  subst h
  exact ⟨by decide, by decide⟩

lemma mem_fail_not_other {s : String} (h : s ∈ Conclusion.fail) :
    s ∉ Conclusion.ignored ∧ s ∉ Conclusion.succeeded := by
  simp only [Conclusion.fail, Conclusion.action_required, Conclusion.cancelled,
    Conclusion.timed_out, Conclusion.failure, Conclusion.failed, Conclusion.stale,
    Conclusion.startup_failure, List.mem_cons, List.not_mem_nil, or_false] at h
  rcases h with h | h | h | h | h | h | h <;> subst h <;> exact ⟨by decide, by decide⟩

/-- C5: a deduplicated, filtered run with status completed lands in exactly
one of ignored, succeeded, failed when its conclusion is recognized; with
an unrecognized conclusion it lands in none of the three, is not in
incomplete, and is still in the complete list whose count is logged. -/
theorem claim_C5_classification_totality (latest : List CheckRun) (ig : List String)
    (r : CheckRun) (h1 : r ∈ filterIgnored latest ig) (h2 : r.status = Status.completed) :
    (conclRecognized r.conclusion = true →
      ((r ∈ (classifyBatch latest ig).ignored ∧ r ∉ (classifyBatch latest ig).succeeded ∧
          r ∉ (classifyBatch latest ig).failed) ∨
        (r ∉ (classifyBatch latest ig).ignored ∧ r ∈ (classifyBatch latest ig).succeeded ∧
          r ∉ (classifyBatch latest ig).failed) ∨
        (r ∉ (classifyBatch latest ig).ignored ∧ r ∉ (classifyBatch latest ig).succeeded ∧
          r ∈ (classifyBatch latest ig).failed))) ∧
      (conclRecognized r.conclusion = false →
        (r ∉ (classifyBatch latest ig).ignored ∧ r ∉ (classifyBatch latest ig).succeeded ∧
          r ∉ (classifyBatch latest ig).failed ∧ r ∉ (classifyBatch latest ig).incomplete ∧
          r ∈ (classifyBatch latest ig).complete)) := by
  have hcomp : r ∈ (classifyBatch latest ig).complete :=
    mem_classify_complete.mpr ⟨h1, by rw [h2]; decide⟩
  have hnotinc : r ∉ (classifyBatch latest ig).incomplete := by
    intro hm
    have h3 := (mem_classify_incomplete.mp hm).2
    rw [h2] at h3
    exact absurd h3 (by decide)
  constructor
  · intro hrec
    cases hc : r.conclusion with
    | none => rw [hc] at hrec; exact absurd hrec (by decide)
    | some s =>
      rw [hc] at hrec
      have hrec2 : (s ∈ Conclusion.ignored ∨ s ∈ Conclusion.succeeded) ∨
          s ∈ Conclusion.fail := by
        simpa [conclRecognized, conclMem] using hrec
      rcases hrec2 with (hig | hsu) | hfa
      · obtain ⟨hd1, hd2⟩ := mem_ignored_not_other hig
        refine Or.inl ⟨mem_classify_ignored.mpr ⟨hcomp, by rw [hc]; exact conclMem_some_iff.mpr hig⟩, ?_, ?_⟩
        · intro hm
          have h3 := (mem_classify_succeeded.mp hm).2
          rw [hc] at h3
          exact hd1 (conclMem_some_iff.mp h3)
        · intro hm
          have h3 := (mem_classify_failed.mp hm).2
          rw [hc] at h3
          exact hd2 (conclMem_some_iff.mp h3)
      · obtain ⟨hd1, hd2⟩ := mem_succeeded_not_other hsu
        refine Or.inr (Or.inl ⟨?_, mem_classify_succeeded.mpr ⟨hcomp, by rw [hc]; exact conclMem_some_iff.mpr hsu⟩, ?_⟩)
        · intro hm
          have h3 := (mem_classify_ignored.mp hm).2
          rw [hc] at h3
          exact hd1 (conclMem_some_iff.mp h3)
        · intro hm
          have h3 := (mem_classify_failed.mp hm).2
          rw [hc] at h3
          exact hd2 (conclMem_some_iff.mp h3)
      · obtain ⟨hd1, hd2⟩ := mem_fail_not_other hfa
        refine Or.inr (Or.inr ⟨?_, ?_, mem_classify_failed.mpr ⟨hcomp, by rw [hc]; exact conclMem_some_iff.mpr hfa⟩⟩)
        · intro hm
          have h3 := (mem_classify_ignored.mp hm).2
          rw [hc] at h3
          exact hd1 (conclMem_some_iff.mp h3)
        · intro hm
          have h3 := (mem_classify_succeeded.mp hm).2
          rw [hc] at h3
          exact hd2 (conclMem_some_iff.mp h3)
  · intro hrec
    have hnone : conclMem r.conclusion Conclusion.ignored = false ∧
        conclMem r.conclusion Conclusion.succeeded = false ∧
        conclMem r.conclusion Conclusion.fail = false := by
      revert hrec
      unfold conclRecognized
      cases conclMem r.conclusion Conclusion.ignored <;>
        cases conclMem r.conclusion Conclusion.succeeded <;>
        cases conclMem r.conclusion Conclusion.fail <;> simp
    refine ⟨?_, ?_, ?_, hnotinc, hcomp⟩
    · intro hm
      have h3 := (mem_classify_ignored.mp hm).2
      rw [hnone.1] at h3
      exact absurd h3 (by decide)
    · intro hm
      have h3 := (mem_classify_succeeded.mp hm).2
      rw [hnone.2.1] at h3
      exact absurd h3 (by decide)
    · intro hm
      have h3 := (mem_classify_failed.mp hm).2
      rw [hnone.2.2] at h3
      exact absurd h3 (by decide)

theorem claim_C5_witness :
    ((successRun ∈ (classifyBatch [successRun, mysteryRun] []).ignored ∧
        successRun ∉ (classifyBatch [successRun, mysteryRun] []).succeeded ∧
        successRun ∉ (classifyBatch [successRun, mysteryRun] []).failed) ∨
      (successRun ∉ (classifyBatch [successRun, mysteryRun] []).ignored ∧
        successRun ∈ (classifyBatch [successRun, mysteryRun] []).succeeded ∧
        successRun ∉ (classifyBatch [successRun, mysteryRun] []).failed) ∨
      (successRun ∉ (classifyBatch [successRun, mysteryRun] []).ignored ∧
        successRun ∉ (classifyBatch [successRun, mysteryRun] []).succeeded ∧
        successRun ∈ (classifyBatch [successRun, mysteryRun] []).failed)) ∧
      (mysteryRun ∉ (classifyBatch [successRun, mysteryRun] []).ignored ∧
        mysteryRun ∉ (classifyBatch [successRun, mysteryRun] []).succeeded ∧
        mysteryRun ∉ (classifyBatch [successRun, mysteryRun] []).failed ∧
        mysteryRun ∉ (classifyBatch [successRun, mysteryRun] []).incomplete ∧
        mysteryRun ∈ (classifyBatch [successRun, mysteryRun] []).complete) :=
  ⟨(claim_C5_classification_totality [successRun, mysteryRun] [] successRun
      (by decide) (by decide)).1 (by decide),
   (claim_C5_classification_totality [successRun, mysteryRun] [] mysteryRun
      (by decide) (by decide)).2 (by decide)⟩

/-- C10: when every deduplicated, filtered run is completed with an
unrecognized conclusion, both the incomplete and failed buckets are empty
and the cycle decision is Success. -/
theorem claim_C10_unrecognized_success (latest : List CheckRun) (ig : List String)
    (ex : Bool)
    (h : ∀ r ∈ filterIgnored latest ig,
      r.status = Status.completed ∧ conclRecognized r.conclusion = false) :
    decideOutcome (classifyBatch latest ig) ex = Outcome.success := by
  have hinc : (classifyBatch latest ig).incomplete = [] := by
    rw [List.eq_nil_iff_forall_not_mem]
    intro r hm
    obtain ⟨hrs, hst⟩ := mem_classify_incomplete.mp hm
    rw [(h r hrs).1] at hst
    exact absurd hst (by decide)
  have hfail : (classifyBatch latest ig).failed = [] := by
    rw [List.eq_nil_iff_forall_not_mem]
    intro r hm
    obtain ⟨hcm, hcl⟩ := mem_classify_failed.mp hm
    have hrs := (mem_classify_complete.mp hcm).1
    have hx := (h r hrs).2
    have hfl : conclMem r.conclusion Conclusion.fail = false := by
      revert hx
      unfold conclRecognized
      cases conclMem r.conclusion Conclusion.ignored <;>
        cases conclMem r.conclusion Conclusion.succeeded <;>
        cases conclMem r.conclusion Conclusion.fail <;> simp
    rw [hfl] at hcl
    exact absurd hcl (by decide)
  cases ex <;> simp [decideOutcome, pollVaultCycle, hinc, hfail]

theorem claim_C10_witness :
    decideOutcome (classifyBatch [mysteryRun] []) false = Outcome.success :=
  claim_C10_unrecognized_success [mysteryRun] [] false (by decide)

/-- A source whose every fetch fails with a transport error. -/
def errorFetch : Nat → Except String (List CheckRun) :=
  fun _ => Except.error "GithubException"

/-- C6: a fetch error terminates the loop fatally in that very cycle, and
a further poll cycle happens only when the fetch succeeded and the
classified incomplete bucket of that fetch is non-empty. -/
theorem claim_C6_incomplete_only_retry (fetch : Nat → Except String (List CheckRun))
    (ig : List String) (ex : Bool) (interval timeout fuel attempt elapsed : Nat) :
    (∀ e, fetch attempt = Except.error e →
        pollLoopAux fetch ig ex interval timeout (fuel + 1) attempt elapsed =
          ⟨LoopResult.fatal e, 1, false⟩) ∧
      (1 < (pollLoopAux fetch ig ex interval timeout (fuel + 1) attempt elapsed).cycles →
        ∃ check_runs, fetch attempt = Except.ok check_runs ∧
          (classifyBatch (reduce_to_latest_runs check_runs) ig).incomplete ≠ []) := by
  constructor
  · intro e he
    rw [pollLoopAux]
    rw [he]
  · intro hc
    cases hf : fetch attempt with
    | error e =>
      rw [pollLoopAux] at hc
      simp only [hf] at hc
      simp at hc
    | ok check_runs =>
      refine ⟨check_runs, rfl, ?_⟩
      rcases ho : pollVaultCycle (classifyBatch (reduce_to_latest_runs check_runs) ig) ex
        with ⟨o, em⟩
      cases o with
      | failure =>
        rw [pollLoopAux] at hc
        simp only [hf, ho] at hc
        simp at hc
      | success =>
        rw [pollLoopAux] at hc
        simp only [hf, ho] at hc
        simp at hc
      | retry =>
        exact @pollVaultCycle_retry_incomplete _ ex (by rw [ho])

theorem claim_C6_witness :
    pollLoopAux errorFetch [] false 10 25 1 1 0 =
        ⟨LoopResult.fatal "GithubException", 1, false⟩ ∧
      ∃ check_runs, alwaysIncomplete 1 = Except.ok check_runs ∧
        (classifyBatch (reduce_to_latest_runs check_runs) []).incomplete ≠ [] :=
  ⟨(claim_C6_incomplete_only_retry errorFetch [] false 10 25 0 1 0).1 "GithubException" rfl,
   (claim_C6_incomplete_only_retry alwaysIncomplete [] false 10 25 1 1 0).2 (by decide)⟩
